import Mathlib

/-!
Shallow embedding of the klumo compile-and-repair pipeline.

Sources embedded here (paths relative to the repository root):
  * crates/beeno-compiler/src/lib.rs — `SourceKind`, `CompileRequest`,
    `CompileMetadata`, `CompileResult`, `CompilerRouter::{resolved_kind,
    cache_key, compile}`, `FileCompileCache::{get, put}`, `parse_provider`,
    `format_provider`.
  * crates/beeno-llm/src/lib.rs — `Provider`, `ProviderSelection`,
    `ProviderDescriptor`, `normalize_js_output`, `extract_fenced_code`,
    `ProviderRouter::{candidate_chain, call_provider, translate}`.
  * crates/klumo-cli/src/self_heal.rs — `compile_repl_heal_candidate`,
    `is_self_heal_supported_source`, `build_self_heal_request`,
    `try_self_heal`.
  * crates/klumo-cli/src/repl_helpers.rs — `can_continue_self_heal`,
    `is_non_recoverable_self_heal_error`.
  * crates/klumo-cli/src/main.rs — the self-heal retry loop of
    `run_command` and the runtime self-heal loop of `repl_command`.
  * crates/beeno-config/src/lib.rs — the `no_cache` resolution of
    `resolve_run_defaults`.

Modelling conventions: Rust `String`/`&str` is Lean `String` (for the
normalization functions, which do index arithmetic, the character list
`List Char` of the string); fallible calls return `Except String`; the
filesystem, the JS engine and the LLM provider clients are oracles passed
as explicit function arguments; functions that the claims observe for
their side effects additionally return an explicit log of the operations
performed.
-/

namespace Klumo

/-! ### beeno-llm: providers and selections -/

/-- `Provider` from crates/beeno-llm/src/lib.rs. -/
inductive Provider where
  | Ollama
  | OpenAiCompatible
deriving DecidableEq, Repr

/-- `ProviderSelection` from crates/beeno-llm/src/lib.rs. -/
inductive ProviderSelection where
  | Auto
  | Ollama
  | OpenAiCompatible
deriving DecidableEq, Repr

/-- `ProviderDescriptor` from crates/beeno-llm/src/lib.rs. -/
structure ProviderDescriptor where
  provider : Provider
  model : String
deriving DecidableEq, Repr

/-- `LlmTranslateRequest` from crates/beeno-llm/src/lib.rs. -/
structure LlmTranslateRequest where
  source_text : String
  source_id : String
  language_hint : Option String
deriving DecidableEq, Repr

/-- `LlmTranslateResponse` from crates/beeno-llm/src/lib.rs. -/
structure LlmTranslateResponse where
  javascript : String
  provider : Provider
  model : String
deriving DecidableEq, Repr

/-- `ProviderAttempt` from crates/beeno-llm/src/lib.rs (the `stage` field is
a `&'static str` in the source). -/
structure ProviderAttempt where
  provider : Provider
  stage : String
  error : String
deriving DecidableEq, Repr

/-! ### beeno-compiler: source classification -/

/-- ASCII lower-casing of one character, the per-character behavior of
Rust `str::to_ascii_lowercase`. -/
def asciiLower (c : Char) : Char :=
  if 'A' ≤ c ∧ c ≤ 'Z' then Char.ofNat (c.toNat + 32) else c

/-- Rust `str::to_ascii_lowercase` on a whole string. -/
def strAsciiLower (s : String) : String :=
  ⟨s.data.map asciiLower⟩

/-- `SourceKind` from crates/beeno-compiler/src/lib.rs. -/
inductive SourceKind where
  | JavaScript
  | TypeScript
  | Unknown (name : String)
  | Auto
deriving DecidableEq, Repr

/-- `SourceKind::from_hint`. -/
def SourceKind.from_hint (hint : String) : SourceKind :=
  match strAsciiLower hint with
  | "js" | "mjs" | "cjs" | "javascript" => .JavaScript
  | "ts" | "typescript" => .TypeScript
  | "auto" => .Auto
  | other => .Unknown other

/-- The character list after the last occurrence of `c`, when `c` occurs:
the second component of Rust `str::rsplit_once`. -/
def afterLastChar (c : Char) (l : List Char) : Option (List Char) :=
  if l.contains c then some ((l.reverse.takeWhile (· ≠ c)).reverse) else none

/-- `SourceKind::infer_from_source_id`: classify by the substring after the
last `.` of the source id (`rsplit_once('.')`); no dot means
`Unknown("unknown")`. -/
def SourceKind.infer_from_source_id (source_id : String) : SourceKind :=
  match afterLastChar '.' source_id.data with
  | some ext => SourceKind.from_hint ⟨ext⟩
  | none => .Unknown "unknown"

/-- `SourceKind::as_hint`. -/
def SourceKind.as_hint : SourceKind → String
  | .JavaScript => "javascript"
  | .TypeScript => "typescript"
  | .Unknown v => v
  | .Auto => "auto"

/-! ### beeno-compiler: requests, results, provider formatting -/

/-- `PROMPT_VERSION` from crates/beeno-compiler/src/lib.rs. -/
def PROMPT_VERSION : String := "m1-v1"

/-- `CompileRequest` from crates/beeno-compiler/src/lib.rs. -/
structure CompileRequest where
  source_text : String
  source_id : String
  kind_hint : Option SourceKind
  language_hint : Option String
  force_llm : Bool
  provider_selection : ProviderSelection
  model_override : Option String
  no_cache : Bool
deriving DecidableEq, Repr

/-- `CompileMetadata` from crates/beeno-compiler/src/lib.rs. -/
structure CompileMetadata where
  provider : Option Provider
  model : Option String
  prompt_version : String
  cache_hit : Bool
deriving DecidableEq, Repr

/-- `CompileResult` from crates/beeno-compiler/src/lib.rs. -/
structure CompileResult where
  javascript : String
  metadata : CompileMetadata
deriving DecidableEq, Repr

/-- `parse_provider` from crates/beeno-compiler/src/lib.rs. -/
def parse_provider (value : String) : Provider :=
  if value = "ollama" then .Ollama else .OpenAiCompatible

/-- `format_provider` from crates/beeno-compiler/src/lib.rs. -/
def format_provider : Provider → String
  | .Ollama => "ollama"
  | .OpenAiCompatible => "openai-compatible"

/-- `CompilerRouter::resolved_kind`: explicit kind hint wins; a missing or
`Auto` hint falls back to inference from the source id. -/
def resolved_kind (req : CompileRequest) : SourceKind :=
  match req.kind_hint.getD .Auto with
  | .Auto => SourceKind.infer_from_source_id req.source_id
  | explicit => explicit

/-! ### beeno-compiler: cache key (SHA-256 over a domain-separated message)

`CompilerRouter::cache_key` feeds the five key components, separated by
fixed marker lines and followed by `PROMPT_VERSION`, into one SHA-256
hasher and formats the digest in lower-case hex. `cacheKeyInput` below is
exactly the concatenation of the byte chunks passed to `hasher.update`,
and `cache_key` is its SHA-256 hex digest (SHA-256 is embedded in full
further down). -/

/-- The exact message hashed by `CompilerRouter::cache_key`, i.e. the
concatenation of every `hasher.update` chunk in order. -/
def cacheKeyInput (source_text source_id kind_hint : String)
    (provider : Provider) (model : String) : String :=
  source_text ++ "\n--source-id--\n" ++ source_id ++ "\n--kind--\n" ++
    kind_hint ++ "\n--provider--\n" ++ format_provider provider ++
    "\n--model--\n" ++ model ++ "\n--prompt-version--\n" ++ PROMPT_VERSION

/-! ### SHA-256 (the `sha2` crate's `Sha256`, modelled over `Nat` words)

Bytes are `Nat` values below 256 and 32-bit words are `Nat` values reduced
modulo `2^32` wherever overflow matters. -/

namespace Sha256

/-- Reduce to a 32-bit word. -/
def w32 (x : Nat) : Nat := x % 4294967296

/-- 32-bit right rotation. -/
def rotr (n x : Nat) : Nat := w32 ((x >>> n) ||| (x <<< (32 - n)))

/-- SHA-256 `Ch`. -/
def ch (x y z : Nat) : Nat := (x &&& y) ^^^ ((4294967295 - x) &&& z)

/-- SHA-256 `Maj`. -/
def maj (x y z : Nat) : Nat := (x &&& y) ^^^ (x &&& z) ^^^ (y &&& z)

/-- SHA-256 `Σ0`. -/
def bigSigma0 (x : Nat) : Nat := rotr 2 x ^^^ rotr 13 x ^^^ rotr 22 x

/-- SHA-256 `Σ1`. -/
def bigSigma1 (x : Nat) : Nat := rotr 6 x ^^^ rotr 11 x ^^^ rotr 25 x

/-- SHA-256 `σ0`. -/
def smallSigma0 (x : Nat) : Nat := rotr 7 x ^^^ rotr 18 x ^^^ w32 (x >>> 3)

/-- SHA-256 `σ1`. -/
def smallSigma1 (x : Nat) : Nat := rotr 17 x ^^^ rotr 19 x ^^^ w32 (x >>> 10)

/-- SHA-256 round constants (FIPS 180-4, written in decimal). -/
def K : List Nat :=
  [1116352408, 1899447441, 3049323471, 3921009573,
   961987163, 1508970993, 2453635748, 2870763221,
   3624381080, 310598401, 607225278, 1426881987,
   1925078388, 2162078206, 2614888103, 3248222580,
   3835390401, 4022224774, 264347078, 604807628,
   770255983, 1249150122, 1555081692, 1996064986,
   2554220882, 2821834349, 2952996808, 3210313671,
   3336571891, 3584528711, 113926993, 338241895,
   666307205, 773529912, 1294757372, 1396182291,
   1695183700, 1986661051, 2177026350, 2456956037,
   2730485921, 2820302411, 3259730800, 3345764771,
   3516065817, 3600352804, 4094571909, 275423344,
   430227734, 506948616, 659060556, 883997877,
   958139571, 1322822218, 1537002063, 1747873779,
   1955562222, 2024104815, 2227730452, 2361852424,
   2428436474, 2756734187, 3204031479, 3329325298]

/-- SHA-256 initial hash words (FIPS 180-4, written in decimal). -/
def H0 : List Nat :=
  [1779033703, 3144134277, 1013904242, 2773480762,
   1359893119, 2600822924, 528734635, 1541459225]

/-- Append the `1` bit, zero padding up to 56 mod 64 bytes, and the 64-bit
big-endian bit length. -/
def pad (msg : List Nat) : List Nat :=
  let len := msg.length
  let zeros := (64 + 56 - ((len + 1) % 64)) % 64
  let bitLen := len * 8
  msg ++ [0x80] ++ List.replicate zeros 0 ++
    ((List.range 8).map fun i => (bitLen >>> ((7 - i) * 8)) % 256)

/-- Split a byte list into 64-byte blocks (the first argument is fuel
bounding the number of blocks; `blocks` instantiates it with the length). -/
def blocksAux : Nat → List Nat → List (List Nat)
  | 0, _ => []
  | _, [] => []
  | fuel + 1, l => l.take 64 :: blocksAux fuel (l.drop 64)

/-- Split a byte list into 64-byte blocks. -/
def blocks (l : List Nat) : List (List Nat) := blocksAux l.length l

/-- The sixteen big-endian message words of one 64-byte block. -/
def blockWords (b : List Nat) : List Nat :=
  (List.range 16).map fun i =>
    (b.getD (4 * i) 0) * 16777216 + (b.getD (4 * i + 1) 0) * 65536 +
      (b.getD (4 * i + 2) 0) * 256 + b.getD (4 * i + 3) 0

/-- Extend the 16 message words by `steps` further schedule words. -/
def extendSchedule (ws : List Nat) : Nat → List Nat
  | 0 => ws
  | n + 1 =>
    let prev := extendSchedule ws n
    let j := prev.length
    prev ++ [w32 (smallSigma1 (prev.getD (j - 2) 0) + prev.getD (j - 7) 0 +
      smallSigma0 (prev.getD (j - 15) 0) + prev.getD (j - 16) 0)]

/-- One compression round; the state is the word list `[a,b,c,d,e,f,g,h]`. -/
def round (st : List Nat) (kw : Nat × Nat) : List Nat :=
  match st with
  | [a, b, c, d, e, f, g, h] =>
    let t1 := w32 (h + bigSigma1 e + ch e f g + kw.1 + kw.2)
    let t2 := w32 (bigSigma0 a + maj a b c)
    [w32 (t1 + t2), a, b, c, w32 (d + t1), e, f, g]
  | other => other

/-- Compress one 64-byte block into the running hash words. -/
def compress (hs : List Nat) (b : List Nat) : List Nat :=
  let ws := extendSchedule (blockWords b) 48
  let out := (K.zip ws).foldl round hs
  (hs.zip out).map fun p => w32 (p.1 + p.2)

/-- SHA-256 digest bytes of a byte-list message. -/
def digest (msg : List Nat) : List Nat :=
  let final := (blocks (pad msg)).foldl compress H0
  final.flatMap fun word => (List.range 4).map fun i => (word >>> ((3 - i) * 8)) % 256

/-- Lower-case hex digit. -/
def hexChar (n : Nat) : Char :=
  if n < 10 then Char.ofNat (48 + n) else Char.ofNat (87 + n)

/-- Lower-case hex string of a byte list, two digits per byte (the
`format!("{:x}", hasher.finalize())` rendering). -/
def toHex (bytes : List Nat) : String :=
  ⟨bytes.flatMap fun b => [hexChar (b / 16), hexChar (b % 16)]⟩

end Sha256

/-- UTF-8 encoding of one character, as `Nat` bytes. -/
def utf8Bytes (c : Char) : List Nat :=
  let n := c.toNat
  if n < 0x80 then [n]
  else if n < 0x800 then
    [0xC0 ||| (n >>> 6), 0x80 ||| (n &&& 0x3F)]
  else if n < 0x10000 then
    [0xE0 ||| (n >>> 12), 0x80 ||| ((n >>> 6) &&& 0x3F), 0x80 ||| (n &&& 0x3F)]
  else
    [0xF0 ||| (n >>> 18), 0x80 ||| ((n >>> 12) &&& 0x3F),
      0x80 ||| ((n >>> 6) &&& 0x3F), 0x80 ||| (n &&& 0x3F)]

/-- UTF-8 bytes of a string, as `Nat` values. -/
def strBytes (s : String) : List Nat := s.data.flatMap utf8Bytes

/-- `CompilerRouter::cache_key`: SHA-256 lower-hex digest of the
domain-separated message `cacheKeyInput`. -/
def cache_key (source_text source_id kind_hint : String)
    (provider : Provider) (model : String) : String :=
  Sha256.toHex (Sha256.digest (strBytes
    (cacheKeyInput source_text source_id kind_hint provider model)))

/-! ### beeno-llm: output normalization (`List Char` view of `&str`) -/

/-- The three-backtick fence delimiter. -/
def fenceChars : List Char := "```".data

/-- Rust `char::is_whitespace`: the Unicode `White_Space` property, i.e.
U+0009–U+000D, U+0020, U+0085, U+00A0, U+1680, U+2000–U+200A, U+2028,
U+2029, U+202F, U+205F and U+3000. -/
def isWs (c : Char) : Bool :=
  let n := c.toNat
  (9 ≤ n && n ≤ 13) || n == 32 || n == 0x85 || n == 0xA0 || n == 0x1680 ||
    (0x2000 ≤ n && n ≤ 0x200A) || n == 0x2028 || n == 0x2029 ||
    n == 0x202F || n == 0x205F || n == 0x3000

/-- Rust `str::trim_start` on a character list. -/
def trimStart (l : List Char) : List Char := l.dropWhile isWs

/-- Rust `str::trim_end` on a character list. -/
def trimEnd (l : List Char) : List Char := (l.reverse.dropWhile isWs).reverse

/-- Rust `str::trim` on a character list. -/
def trimChars (l : List Char) : List Char := trimEnd (trimStart l)

/-- Index of the first occurrence of `pat` in `l`
(Rust `str::find(pattern)`). -/
def findSub (pat : List Char) : List Char → Option Nat
  | [] => if pat = [] then some 0 else none
  | c :: rest =>
    if pat.isPrefixOf (c :: rest) then some 0
    else (findSub pat rest).map (· + 1)

/-- `extract_fenced_code` from crates/beeno-llm/src/lib.rs: the text between
the first ```` ``` ````, the newline that ends its info line, and the next
```` ``` ````. -/
def extract_fenced_code (input : List Char) : Option (List Char) :=
  match findSub fenceChars input with
  | none => none
  | some start =>
    let remainder := input.drop (start + 3)
    match findSub ['\n'] remainder with
    | none => none
    | some nlPos =>
      let body := remainder.drop (nlPos + 1)
      match findSub fenceChars body with
      | none => none
      | some stop => some (body.take stop)

/-- `normalize_js_output` from crates/beeno-llm/src/lib.rs. -/
def normalize_js_output (raw : List Char) : Except String (List Char) :=
  let trimmed := trimChars raw
  if trimmed.isEmpty then .error "LLM returned empty output"
  else
    match extract_fenced_code trimmed with
    | some block =>
      if (trimChars block).isEmpty then .error "LLM returned empty fenced output"
      else .ok (trimChars block)
    | none => .ok trimmed

/-! ### beeno-llm: provider router -/

/-- `ProviderRouter` from crates/beeno-llm/src/lib.rs. The two `LlmClient`
collaborators and the `ReachabilityProbe` are oracles: a client maps
(request, model) to a raw text or an error, and the probe result is the
boolean the single `ollama_reachable` call returns. -/
structure ProviderRouter where
  ollama : LlmTranslateRequest → String → Except String String
  openai : LlmTranslateRequest → String → Except String String
  ollamaReachable : Bool
  ollama_model : String
  openai_model : String

/-- `ProviderRouter::candidate_chain`. -/
def candidate_chain (r : ProviderRouter) : ProviderSelection → List ProviderDescriptor
  | .Ollama => [⟨.Ollama, r.ollama_model⟩]
  | .OpenAiCompatible => [⟨.OpenAiCompatible, r.openai_model⟩]
  | .Auto =>
    if r.ollamaReachable then
      [⟨.Ollama, r.ollama_model⟩, ⟨.OpenAiCompatible, r.openai_model⟩]
    else
      [⟨.OpenAiCompatible, r.openai_model⟩]

/-- `ProviderRouter::call_provider`, additionally returning the
(provider, model) pair of the single client call it performs. -/
def call_provider (r : ProviderRouter) (provider : Provider)
    (req : LlmTranslateRequest) (model_override : Option String) :
    Except String LlmTranslateResponse × (Provider × String) :=
  match provider with
  | .Ollama =>
    let model := model_override.getD r.ollama_model
    let result : Except String LlmTranslateResponse :=
      match r.ollama req model with
      | .error e => .error e
      | .ok output =>
        match normalize_js_output output.data with
        | .error e => .error e
        | .ok js => .ok ⟨⟨js⟩, .Ollama, model⟩
    (result, (.Ollama, model))
  | .OpenAiCompatible =>
    let model := model_override.getD r.openai_model
    let result : Except String LlmTranslateResponse :=
      match r.openai req model with
      | .error e => .error e
      | .ok output =>
        match normalize_js_output output.data with
        | .error e => .error e
        | .ok js => .ok ⟨⟨js⟩, .OpenAiCompatible, model⟩
    (result, (.OpenAiCompatible, model))

/-- The loop body of `ProviderRouter::translate`: walk the candidate list
carrying the accumulated failure attempts, returning the routing result
together with the list of client calls performed. -/
def translateGo (r : ProviderRouter) (req : LlmTranslateRequest)
    (model_override : Option String) :
    List ProviderDescriptor → List ProviderAttempt →
    Except (List ProviderAttempt) LlmTranslateResponse × List (Provider × String)
  | [], attempts => (.error attempts, [])
  | entry :: rest, attempts =>
    match call_provider r entry.provider req model_override with
    | (.ok response, call) => (.ok response, [call])
    | (.error err, call) =>
      let next := translateGo r req model_override rest
        (attempts ++ [⟨entry.provider, "translate", err⟩])
      (next.1, call :: next.2)

/-- `ProviderRouter::translate`: iterate `candidate_chain`, return the first
success, else a `ProviderRoutingError` carrying every attempt. The second
component is the log of client calls performed. -/
def translate (r : ProviderRouter) (selection : ProviderSelection)
    (req : LlmTranslateRequest) (model_override : Option String) :
    Except (List ProviderAttempt) LlmTranslateResponse × List (Provider × String) :=
  translateGo r req model_override (candidate_chain r selection) []

/-! ### beeno-compiler: compile coordinator -/

/-- The `TranslationService` collaborator of `CompilerRouter`, as an oracle
pair mirroring the trait's two methods. -/
structure TranslationService where
  candidateChain : ProviderSelection → List ProviderDescriptor
  translateCall :
    ProviderSelection → LlmTranslateRequest → Option String →
      Except String LlmTranslateResponse

/-- The `CompileCache` collaborator of `CompilerRouter`, as an oracle pair
mirroring the trait's two methods. -/
structure CompileCache where
  get : String → Option CompileResult
  put : String → CompileResult → Except String Unit

/-- The collaborator calls `CompilerRouter::compile` performs, observed by
the pass-through claim: the cache keys read, the cache keys written, and
the number of `translate` calls. -/
structure CompileEffects where
  cacheGets : List String
  cachePuts : List String
  translateCalls : Nat
deriving DecidableEq, Repr

/-- The cache-lookup loop of `CompilerRouter::compile`: per candidate,
compute the key (override model first, else the candidate's model) and
return the first hit. Also returns the keys read, in order. -/
def cacheLookup (cache : CompileCache) (req : CompileRequest)
    (kind_hint : String) :
    List ProviderDescriptor → Option CompileResult × List String
  | [] => (none, [])
  | candidate :: rest =>
    let model_for_key := req.model_override.getD candidate.model
    let key := cache_key req.source_text req.source_id kind_hint
      candidate.provider model_for_key
    match cache.get key with
    | some cached => (some cached, [key])
    | none =>
      let next := cacheLookup cache req kind_hint rest
      (next.1, key :: next.2)

/-- `CompilerRouter::compile` (the `Compiler` impl), returning the result
plus the log of collaborator calls. Steps mirror the source: resolve the
kind, compute the effective hint, pass through unforced JavaScript
untouched, else consult the cache across the candidate chain, else
translate and write the fresh result back under the answering
provider/model key. -/
def compile (translator : TranslationService) (cache : CompileCache)
    (req : CompileRequest) : Except String CompileResult × CompileEffects :=
  let kind := resolved_kind req
  let kind_hint := req.language_hint.getD kind.as_hint
  let needs_llm := req.force_llm || !(kind = SourceKind.JavaScript)
  if !needs_llm then
    (.ok ⟨req.source_text, ⟨none, none, PROMPT_VERSION, false⟩⟩, ⟨[], [], 0⟩)
  else
    let lookup :=
      if !req.no_cache then
        cacheLookup cache req kind_hint (translator.candidateChain req.provider_selection)
      else (none, [])
    match lookup.1 with
    | some cached => (.ok cached, ⟨lookup.2, [], 0⟩)
    | none =>
      match translator.translateCall req.provider_selection
        ⟨req.source_text, req.source_id, some kind_hint⟩ req.model_override with
      | .error e => (.error e, ⟨lookup.2, [], 1⟩)
      | .ok translated =>
        let result : CompileResult :=
          ⟨translated.javascript,
            ⟨some translated.provider, some translated.model, PROMPT_VERSION, false⟩⟩
        if !req.no_cache then
          let key := cache_key req.source_text req.source_id kind_hint
            translated.provider translated.model
          match cache.put key result with
          | .error e => (.error e, ⟨lookup.2, [key], 1⟩)
          | .ok _ => (.ok result, ⟨lookup.2, [key], 1⟩)
        else (.ok result, ⟨lookup.2, [], 1⟩)

/-! ### beeno-compiler: file-backed cache -/

/-- `CachedResult`, the JSON payload of one cache file. -/
structure CachedResult where
  javascript : String
  provider : Option String
  model : Option String
  prompt_version : String
deriving DecidableEq, Repr

/-- One filesystem operation, for observing which calls
`FileCompileCache::{get, put}` make. -/
inductive FsOp where
  | readToString (path : String)
  | createDirAll (dir : String)
  | write (path : String) (contents : String)
deriving DecidableEq, Repr

/-- The filesystem as an oracle: `read_to_string` yields the contents or
fails; `create_dir_all` and `write` succeed or yield an error text. -/
structure FsOracle where
  readToString : String → Option String
  createDirAll : String → Except String Unit
  write : String → String → Except String Unit

/-- `self.root.join(format!("{key}.json"))`. -/
def cacheFilePath (root key : String) : String := root ++ "/" ++ key ++ ".json"

/-- `FileCompileCache::get`, with `serde_json::from_str` as a parse oracle:
read the key's file and parse it; any failure is a miss. Returns the result
and the filesystem operations attempted. -/
def fileCacheGet (fs : FsOracle) (parseJson : String → Option CachedResult)
    (root key : String) : Option CompileResult × List FsOp :=
  let path := cacheFilePath root key
  let result :=
    match fs.readToString path with
    | none => none
    | some raw =>
      match parseJson raw with
      | none => none
      | some parsed =>
        some (⟨parsed.javascript,
          ⟨parsed.provider.map parse_provider, parsed.model,
            parsed.prompt_version, true⟩⟩ : CompileResult)
  (result, [.readToString path])

/-- The `CachedResult` payload `FileCompileCache::put` serializes for a
given result. -/
def cachePayload (result : CompileResult) : CachedResult :=
  ⟨result.javascript, result.metadata.provider.map format_provider,
    result.metadata.model, result.metadata.prompt_version⟩

/-- `FileCompileCache::put`, with `serde_json::to_string_pretty` as a
serialization oracle: create the root directory, serialize the payload and
write it; every failure propagates with the source's context text. Returns
the outcome and the filesystem operations attempted, in order. -/
def fileCachePut (fs : FsOracle) (serializeJson : CachedResult → Except String String)
    (root key : String) (result : CompileResult) :
    Except String Unit × List FsOp :=
  match fs.createDirAll root with
  | .error e => (.error ("failed creating cache dir " ++ root ++ ": " ++ e),
      [.createDirAll root])
  | .ok _ =>
    let path := cacheFilePath root key
    match serializeJson (cachePayload result) with
    | .error e => (.error ("failed serializing cache payload: " ++ e),
        [.createDirAll root])
    | .ok raw =>
      match fs.write path raw with
      | .error e => (.error ("failed writing cache file: " ++ e),
          [.createDirAll root, .write path raw])
      | .ok _ => (.ok (), [.createDirAll root, .write path raw])

/-! ### klumo-cli: compile requests of the self-heal paths

The `klumo_compiler::CompileRequest` consumed by klumo-cli extends the
beeno-compiler request with the optional `scope_context` string; its field
list is fully determined by the struct literals in
crates/klumo-cli/src/self_heal.rs and matches the spec's CompileRequest
data model. -/

/-- The `CompileRequest` of the `klumo_compiler` crate, as instantiated by
the klumo-cli struct literals. -/
structure KlumoCompileRequest where
  source_text : String
  source_id : String
  kind_hint : Option SourceKind
  language_hint : Option String
  scope_context : Option String
  force_llm : Bool
  provider_selection : ProviderSelection
  model_override : Option String
  no_cache : Bool
deriving DecidableEq, Repr

/-- The fields of `klumo_core::RunOptions` that `try_self_heal` reads. -/
structure RunOptions where
  provider_selection : ProviderSelection
  model_override : Option String
deriving DecidableEq, Repr

/-- `build_self_heal_request` from crates/klumo-cli/src/self_heal.rs. -/
def build_self_heal_request (path source error_text : String) : String :=
  "Repair this JavaScript file so it runs successfully.\n" ++
  "Return ONLY complete JavaScript source for the full file, no markdown, no prose.\n" ++
  "Preserve behavior and structure as much as possible.\n" ++
  "File: " ++ path ++ "\n" ++
  "Runtime error:\n" ++ error_text ++ "\n" ++
  "SOURCE START\n" ++ source ++ "\n" ++
  "SOURCE END"

/-- The `CompileRequest` submitted by `compile_repl_heal_candidate`
(crates/klumo-cli/src/self_heal.rs, the interactive repair flavor). The
`no_cache` argument is the value the `repl_command` call sites pass, namely
the session's `resolved.no_cache` (crates/klumo-cli/src/main.rs). -/
def replHealRequest (repl_lang : String) (provider_selection : ProviderSelection)
    (model_override : Option String) (no_cache : Bool)
    (scope_context : Option String) (heal_prompt : String) (attempt : Nat) :
    KlumoCompileRequest where
  source_text := heal_prompt
  source_id := "<repl-self-heal-" ++ toString attempt ++ ">"
  kind_hint := some (.Unknown repl_lang)
  language_hint := some repl_lang
  scope_context := scope_context
  force_llm := true
  provider_selection := provider_selection
  model_override := model_override
  no_cache := no_cache

/-- The `CompileRequest` submitted by `try_self_heal`
(crates/klumo-cli/src/self_heal.rs, the whole-file repair flavor). -/
def fileHealRequest (file current_source error_text : String)
    (options : RunOptions) (attempt : Nat) : KlumoCompileRequest where
  source_text := build_self_heal_request file current_source error_text
  source_id := file ++ "#self-heal-" ++ toString (attempt + 1)
  kind_hint := some (.Unknown "self-heal")
  language_hint := some "self-heal-javascript"
  scope_context := none
  force_llm := true
  provider_selection := options.provider_selection
  model_override := options.model_override
  no_cache := true

/-- The `no_cache` row of `resolve_run_defaults`
(crates/beeno-config/src/lib.rs): CLI override, else environment, else
config file, else the `RunDefaults::default()` value `false`. -/
def resolveNoCache (cli envCfg fileCfg : Option Bool) : Bool :=
  ((cli.or envCfg).or fileCfg).getD false

/-! ### klumo-cli: supported sources for whole-file self-heal -/

/-- The file-name component of a path: the characters after the last `/`
(`Path::file_name` for plain file paths). -/
def fileNameChars (p : List Char) : List Char :=
  (p.reverse.takeWhile (· ≠ '/')).reverse

/-- `Path::extension`: the portion of the file name after its last `.`,
where a leading dot does not start an extension (`".js"` has none) and a
name without an embedded dot has none. -/
def pathExtension (p : String) : Option String :=
  match fileNameChars p.data with
  | [] => none
  | _ :: rest => (afterLastChar '.' rest).map (⟨·⟩)

/-- `is_self_heal_supported_source` from crates/klumo-cli/src/self_heal.rs:
the extension, ASCII lower-cased, must be `js`, `mjs`, `cjs` or `jsx`. -/
def is_self_heal_supported_source (file : String) : Bool :=
  match pathExtension file with
  | some ext =>
    (["js", "mjs", "cjs", "jsx"] : List String).contains (strAsciiLower ext)
  | none => false

/-! ### klumo-cli: repl helpers used by the interactive loop -/

/-- `can_continue_self_heal` from crates/klumo-cli/src/repl_helpers.rs:
`none` is the unlimited budget. -/
def can_continue_self_heal (attempt : Nat) (limit : Option Nat) : Bool :=
  match limit with
  | some max => attempt < max
  | none => true

/-- Rust `str::contains(substring)` on Lean strings. -/
def strContainsSub (haystack needle : String) : Bool :=
  (findSub needle.data haystack.data).isSome

/-- `is_non_recoverable_self_heal_error` from
crates/klumo-cli/src/repl_helpers.rs. -/
def is_non_recoverable_self_heal_error (error_text : String) : Bool :=
  strContainsSub error_text "OPENAI_API_KEY" ||
  strContainsSub error_text "llm unavailable" ||
  strContainsSub error_text "unknown provider"

/-! ### klumo-cli: the whole-file self-heal loop of `run_command`

`run_command` (crates/klumo-cli/src/main.rs) runs
`for attempt in 0..=max_heal_attempts { ... }`: a successful `run_file`
breaks with the outcome; a failure returns at once when self-heal is off or
the file is unsupported, records the error and breaks once the attempt
counter reaches the bound, and otherwise invokes `try_self_heal`, whose
failure also returns at once. A loop that breaks without an outcome
reports `failed running {file} after {k} self-heal attempts: {last_err}`.

`run_file` (execution of the current file contents by the engine) and
`try_self_heal` (one repair compile plus file rewrite) are per-attempt
oracles here; the loop additionally returns how many `try_self_heal`
invocations — repair attempts — it performed. Fuel makes the recursion
structural; `max_heal_attempts + 1` fuel is enough (proved below). -/

/-- How one `run_command` invocation ends. -/
inductive RunOutcome where
  | success (value : String)
  | failNoSelfHeal (file err : String)
  | failUnsupported (file err : String)
  | healFailed (file healErr : String)
  | exhausted (file : String) (maxAttempts : Nat) (lastErr : String)
deriving DecidableEq, Repr

/-- The error message `run_command` surfaces for each failing outcome,
with the source's context/format texts. -/
def runErrorMessage : RunOutcome → Option String
  | .success _ => none
  | .failNoSelfHeal file err => some ("failed running " ++ file ++ ": " ++ err)
  | .failUnsupported file err =>
    some ("failed running " ++ file ++
      " (self-heal currently supports .js/.mjs/.cjs/.jsx): " ++ err)
  | .healFailed file healErr =>
    some ("self-heal failed for " ++ file ++ ": " ++ healErr)
  | .exhausted file maxAttempts lastErr =>
    some ("failed running " ++ file ++ " after " ++ toString maxAttempts ++
      " self-heal attempts: " ++ lastErr)

/-- The retry loop of `run_command`. `runFile i` is the result of running
the file on iteration `i`; `tryHeal i` the result of `try_self_heal` for
attempt index `i`. Returns the outcome paired with the number of repair
attempts performed, or `none` when the fuel ran out before the loop exited. -/
def runCommandLoop (runFile : Nat → Except String String)
    (tryHeal : Nat → Except String Unit) (selfHeal : Bool) (file : String)
    (maxHealAttempts : Nat) :
    Nat → Nat → Nat → Option (RunOutcome × Nat)
  | 0, _, _ => none
  | fuel + 1, attempt, healCalls =>
    match runFile attempt with
    | .ok value => some (.success value, healCalls)
    | .error err =>
      if !selfHeal then some (.failNoSelfHeal file err, healCalls)
      else if !is_self_heal_supported_source file then
        some (.failUnsupported file err, healCalls)
      else if maxHealAttempts ≤ attempt then
        some (.exhausted file maxHealAttempts err, healCalls)
      else
        match tryHeal attempt with
        | .error healErr => some (.healFailed file healErr, healCalls + 1)
        | .ok _ =>
          runCommandLoop runFile tryHeal selfHeal file maxHealAttempts
            fuel (attempt + 1) (healCalls + 1)

/-! ### klumo-cli: the interactive runtime self-heal loop of `repl_command`

The runtime half of `repl_command` (crates/klumo-cli/src/main.rs) runs
`while can_continue_self_heal(attempt, limit)`: a successful eval breaks
with its output; on an eval failure it compiles a repair candidate via
`compile_repl_heal_candidate`, replacing the candidate on success, and on
a repair failure breaks immediately — keeping the runtime error as the
final error — exactly when `is_non_recoverable_self_heal_error` holds;
otherwise `attempt` advances and the loop retries. Eval and repair are
per-iteration oracles; the loop also counts repair compiles performed. -/

/-- One terminal state of the interactive runtime loop: the eval output if
any, the final runtime error if any, and the repair compiles performed. -/
structure ReplLoopExit where
  evalOutput : Option String
  finalRuntimeError : Option String
  healCalls : Nat
deriving DecidableEq, Repr

/-- The interactive runtime self-heal loop. `evalR i` is the engine result
of iteration `i`; `healR i` the repair-compile result for attempt `i`.
`none` means the fuel ran out before the loop exited (which for a `some`
limit cannot happen with `limit + 1` fuel, and models the genuinely
unbounded retry of the unlimited case). -/
def replRuntimeLoop (evalR : Nat → Except String String)
    (healR : Nat → Except String String) (limit : Option Nat) :
    Nat → Nat → Nat → Option ReplLoopExit
  | 0, _, _ => none
  | fuel + 1, attempt, healCalls =>
    if can_continue_self_heal attempt limit then
      match evalR attempt with
      | .ok output => some ⟨some output, none, healCalls⟩
      | .error errText =>
        match healR attempt with
        | .ok _ =>
          replRuntimeLoop evalR healR limit fuel (attempt + 1) (healCalls + 1)
        | .error healErr =>
          if is_non_recoverable_self_heal_error healErr then
            some ⟨none, some errText, healCalls + 1⟩
          else
            replRuntimeLoop evalR healR limit fuel (attempt + 1) (healCalls + 1)
    else some ⟨none, none, healCalls⟩

/-! ### Helper observations on `call_provider`, used to state the routing
claims -/

/-- The routing outcome of trying one candidate. -/
def callResult (r : ProviderRouter) (req : LlmTranslateRequest)
    (model_override : Option String) (c : ProviderDescriptor) :
    Except String LlmTranslateResponse :=
  (call_provider r c.provider req model_override).1

/-- The error text of a failing candidate (empty for a succeeding one). -/
def callErrText (r : ProviderRouter) (req : LlmTranslateRequest)
    (model_override : Option String) (c : ProviderDescriptor) : String :=
  match callResult r req model_override c with
  | .error e => e
  | .ok _ => ""

/-- The model `call_provider` resolves for a provider: the explicit
override when present, else that provider's configured model. -/
def resolvedModel (r : ProviderRouter) (model_override : Option String) :
    Provider → String
  | .Ollama => model_override.getD r.ollama_model
  | .OpenAiCompatible => model_override.getD r.openai_model

/-! ### Auxiliary facts: the decimal rendering of `Nat` is injective

The self-heal source identifiers embed the attempt counter via
`format!("{n}")`, modelled by `toString`. Injectivity of `toString` on
`Nat` is established by re-deriving `Nat.toDigitsCore` as the plain
recursion `decRender` and exhibiting the parse `decVal` as its left
inverse. -/

/-- Decimal digit list of `n` (what `Nat.toDigits 10 n` computes). -/
def decRender (n : Nat) : List Char :=
  if _h : n < 10 then [Nat.digitChar (n % 10)]
  else decRender (n / 10) ++ [Nat.digitChar (n % 10)]
termination_by n
decreasing_by exact Nat.div_lt_self (by omega) (by omega)

/-- Numeric value of a decimal digit character. -/
def decDigitVal (c : Char) : Nat := c.toNat - 48

/-- Parse a decimal digit list back to its value. -/
def decVal (l : List Char) : Nat :=
  l.foldl (fun acc c => acc * 10 + decDigitVal c) 0

theorem decDigitVal_digitChar {d : Nat} (h : d < 10) :
    decDigitVal (Nat.digitChar d) = d := by
  interval_cases d <;> decide

theorem toDigitsCore_eq_decRender (f : Nat) :
    ∀ n ds, n < f → Nat.toDigitsCore 10 f n ds = decRender n ++ ds := by
  induction f with
  | zero => intro n ds h; omega
  | succ f ih =>
    intro n ds h
    rw [Nat.toDigitsCore, decRender]
    by_cases h10 : n / 10 = 0
    · have hn : n < 10 := by omega
      simp [h10, hn]
    · have hn : ¬ n < 10 := by omega
      have hlt : n / 10 < f := by
        have hself : n / 10 < n := Nat.div_lt_self (by omega) (by omega)
        omega
      simp only [h10, if_false, hn, dif_neg, not_false_iff]
      rw [ih (n / 10) (Nat.digitChar (n % 10) :: ds) hlt]
      simp

theorem decVal_decRender (n : Nat) : decVal (decRender n) = n := by
  induction n using Nat.strong_induction_on with
  | _ n ih =>
    rw [decRender]
    by_cases h : n < 10
    · simp only [h, dif_pos]
      have hmod : n % 10 = n := Nat.mod_eq_of_lt h
      simp [decVal, decDigitVal_digitChar (hmod ▸ Nat.mod_lt n (by omega)), hmod]
    · simp only [h, dif_neg, not_false_iff]
      have hdiv : n / 10 < n := Nat.div_lt_self (by omega) (by omega)
      simp only [decVal, List.foldl_append, List.foldl] at *
      rw [ih (n / 10) hdiv]
      rw [decDigitVal_digitChar (Nat.mod_lt n (by omega))]
      omega

theorem natToString_inj {m n : Nat} (h : toString m = toString n) : m = n := by
  have hdata : Nat.toDigits 10 m = Nat.toDigits 10 n := congrArg String.data h
  have hm : Nat.toDigits 10 m = decRender m ++ [] :=
    toDigitsCore_eq_decRender (m + 1) m [] (by omega)
  have hn : Nat.toDigits 10 n = decRender n ++ [] :=
    toDigitsCore_eq_decRender (n + 1) n [] (by omega)
  have : decRender m = decRender n := by
    simpa [hm, hn] using hdata
  calc m = decVal (decRender m) := (decVal_decRender m).symm
    _ = decVal (decRender n) := by rw [this]
    _ = n := decVal_decRender n

/-! ### Sanity facts: the hash and whitespace embeddings -/

/-- The SHA-256 embedding reproduces the FIPS 180-4 test vectors, so
`cache_key` hashes with the same function as the `sha2` crate. -/
theorem sha256_matches_fips_vectors :
    Sha256.toHex (Sha256.digest (strBytes "abc")) =
      "ba7816bf8f01cfea414140de5dae2223b00361a396177a9cb410ff61f20015ad" ∧
    Sha256.toHex (Sha256.digest (strBytes "")) =
      "e3b0c44298fc1c149afbf4c8996fb92427ae41e4649b934ca495991b7852b855" := by
  constructor <;> decide

/-- `isWs` covers the Unicode `White_Space` code points beyond ASCII
space/tab/CR/LF — vertical tab, form feed, NBSP, line separator — and
rejects non-whitespace such as zero-width space, exactly like Rust
`char::is_whitespace`. -/
theorem isWs_matches_unicode_whitespace :
    isWs (Char.ofNat 0x0B) = true ∧ isWs (Char.ofNat 0x0C) = true ∧
    isWs (Char.ofNat 0xA0) = true ∧ isWs (Char.ofNat 0x2028) = true ∧
    isWs (Char.ofNat 0x3000) = true ∧ isWs 'a' = false ∧
    isWs (Char.ofNat 0x200B) = false := by
  decide

/-! ### Lemmas on trimming and substring search, for the normalization
claim -/

theorem trimStart_trimStart (l : List Char) :
    trimStart (trimStart l) = trimStart l := by
  simp [trimStart, List.dropWhile_idempotent]

theorem trimEnd_trimEnd (l : List Char) : trimEnd (trimEnd l) = trimEnd l := by
  simp [trimEnd, List.dropWhile_idempotent]

theorem trimEnd_prefix (l : List Char) : trimEnd l <+: l := by
  have h : l.reverse.dropWhile isWs <:+ l.reverse := List.dropWhile_suffix isWs
  rw [← List.reverse_prefix] at h
  simpa [trimEnd] using h

theorem trimStart_suffix (l : List Char) : trimStart l <:+ l :=
  List.dropWhile_suffix isWs

theorem trimStart_eq_self_of_head {c : Char} {t : List Char}
    (h : isWs c = false) : trimStart (c :: t) = c :: t := by
  simp [trimStart, List.dropWhile, h]

theorem trimStart_of_prefix_trimStart {l x : List Char}
    (h : x <+: trimStart l) : trimStart x = x := by
  match hx : x with
  | [] => rfl
  | c :: t =>
    obtain ⟨u, hu⟩ := h
    have hhead : (trimStart l).head? = some c := by
      rw [← hu]; rfl
    have hnot := List.head?_dropWhile_not isWs l
    rw [show List.dropWhile isWs l = trimStart l from rfl, hhead] at hnot
    simp only [Option.all_some] at hnot
    exact trimStart_eq_self_of_head (by simpa using hnot)

theorem trimChars_idem (l : List Char) : trimChars (trimChars l) = trimChars l := by
  unfold trimChars
  rw [trimStart_of_prefix_trimStart ( trimEnd_prefix (trimStart l)),
    trimEnd_trimEnd]

theorem trimChars_infix (l : List Char) : trimChars l <:+: l := by
  obtain ⟨t, ht⟩ := trimEnd_prefix (trimStart l)
  obtain ⟨s, hs⟩ := trimStart_suffix l
  refine ⟨s, t, ?_⟩
  calc s ++ trimChars l ++ t = s ++ (trimChars l ++ t) := by
        rw [List.append_assoc]
    _ = s ++ trimStart l := by
        rw [show trimChars l = trimEnd (trimStart l) from rfl, ht]
    _ = l := hs

theorem findSub_eq_none_of_not_occurs {pat l : List Char}
    (h : ∀ j, pat.isPrefixOf (l.drop j) = false) : findSub pat l = none := by
  induction l with
  | nil =>
    have h0 := h 0
    simp only [List.drop_nil] at h0
    have : pat ≠ [] := by
      intro hp; rw [hp] at h0; simp [List.isPrefixOf] at h0
    simp [findSub, this]
  | cons c rest ih =>
    have h0 := h 0
    simp only [List.drop_succ_cons, List.drop_zero] at h0
    rw [findSub, h0]
    simp only [if_false, Bool.false_eq_true]
    rw [ih fun j => by simpa using h (j + 1)]
    rfl

theorem findSub_min {pat l : List Char} {i : Nat} (h : findSub pat l = some i) :
    ∀ j < i, pat.isPrefixOf (l.drop j) = false := by
  induction l generalizing i with
  | nil =>
    intro j hj
    by_cases hp : pat = []
    · simp [findSub, hp] at h; omega
    · simp [findSub, hp] at h
  | cons c rest ih =>
    intro j hj
    rw [findSub] at h
    by_cases hpre : pat.isPrefixOf (c :: rest) = true
    · simp [hpre] at h; omega
    · simp only [Bool.not_eq_true] at hpre
      rw [hpre] at h
      simp only [Bool.false_eq_true, if_false, Option.map_eq_some'] at h
      obtain ⟨i', hi', rfl⟩ := h
      match j with
      | 0 => simpa using hpre
      | j' + 1 =>
        simp only [List.drop_succ_cons]
        exact ih hi' j' (by omega)

theorem prefix_of_take_prefix {pat x : List Char} {n : Nat}
    (h : pat.isPrefixOf (x.take n) = true) : pat.isPrefixOf x = true := by
  rw [ List.isPrefixOf_iff_prefix] at h ⊢
  exact h.trans ( List.take_prefix n x)

theorem occurs_in_take {pat l : List Char} {e j : Nat} (hp : pat ≠ [])
    (h : pat.isPrefixOf ((l.take e).drop j) = true) :
    j < e ∧ pat.isPrefixOf (l.drop j) = true := by
  have hne : (l.take e).drop j ≠ [] := by
    intro hnil
    rw [hnil] at h
    rcases pat with _ | ⟨p, ps⟩
    · exact hp rfl
    · simp [List.isPrefixOf] at h
  have hj : j < (l.take e).length := by
    by_contra hge
    exact hne (List.drop_eq_nil_of_le (by omega))
  have hje : j < e := by
    have hle : (l.take e).length ≤ e := List.length_take_le e l
    omega
  refine ⟨hje, ?_⟩
  have heq : (l.take e).drop j = (l.drop j).take (e - j) := by
    rw [List.take_drop, show j + (e - j) = e from by omega]
  rw [heq] at h
  exact prefix_of_take_prefix h

theorem no_occurrence_in_first_match_prefix {pat l : List Char} {e : Nat}
    (hp : pat ≠ []) (h : findSub pat l = some e) :
    ∀ j, pat.isPrefixOf ((l.take e).drop j) = false := by
  intro j
  by_contra hocc
  simp only [Bool.not_eq_false] at hocc
  obtain ⟨hje, hocc'⟩ := occurs_in_take hp hocc
  rw [findSub_min h j hje] at hocc'
  exact Bool.false_ne_true hocc'

theorem findSub_none_of_infix {pat u v : List Char} (hp : pat ≠ [])
    (hinf : u <:+: v) (h : ∀ j, pat.isPrefixOf (v.drop j) = false) :
    findSub pat u = none := by
  apply findSub_eq_none_of_not_occurs
  intro j
  by_contra hocc
  simp only [Bool.not_eq_false] at hocc
  obtain ⟨s, t, hst⟩ := hinf
  have hne : u.drop j ≠ [] := by
    intro hnil
    rw [hnil] at hocc
    rcases pat with _ | ⟨p, ps⟩
    · exact hp rfl
    · simp [List.isPrefixOf] at hocc
  have hj : j < u.length := by
    by_contra hge
    exact hne (List.drop_eq_nil_of_le (by omega))
  have hdrop : v.drop (s.length + j) = u.drop j ++ t := by
    have hv : v = s ++ (u ++ t) := by rw [← hst, List.append_assoc]
    rw [hv, List.drop_append_eq_append_drop,
      show s.drop (s.length + j) = [] from List.drop_eq_nil_of_le (by omega),
      List.nil_append,
      show s.length + j - s.length = j from by omega,
      List.drop_append_eq_append_drop,
      show j - u.length = 0 from by omega]
    simp
  have : pat.isPrefixOf (v.drop (s.length + j)) = true := by
    rw [hdrop, List.isPrefixOf_iff_prefix] at *
    exact List.IsPrefix.trans hocc (List.prefix_append _ _)
  rw [h (s.length + j)] at this
  exact Bool.false_ne_true this

theorem not_occurs_of_findSub_none {pat l : List Char}
    (h : findSub pat l = none) : ∀ j, pat.isPrefixOf (l.drop j) = false := by
  induction l with
  | nil =>
    intro j
    have hp : pat ≠ [] := by
      intro hpnil
      rw [hpnil] at h
      simp [findSub] at h
    rw [List.drop_nil]
    rcases pat with _ | ⟨p, ps⟩
    · exact absurd rfl hp
    · rfl
  | cons c rest ih =>
    intro j
    rw [findSub] at h
    by_cases hpre : pat.isPrefixOf (c :: rest) = true
    · simp [hpre] at h
    · simp only [Bool.not_eq_true] at hpre
      rw [hpre] at h
      simp only [Bool.false_eq_true, if_false, Option.map_eq_none'] at h
      match j with
      | 0 => simpa using hpre
      | j' + 1 =>
        simp only [List.drop_succ_cons]
        exact ih h j'

theorem fence_not_in_extracted {l b : List Char}
    (h : extract_fenced_code l = some b) : findSub fenceChars b = none := by
  unfold extract_fenced_code at h
  rcases hfind : findSub fenceChars l with _ | start
  · rw [hfind] at h; exact absurd h (by simp)
  · rw [hfind] at h
    dsimp only at h
    rcases hnl : findSub ['\n'] (l.drop (start + 3)) with _ | nlPos
    · rw [hnl] at h; exact absurd h (by simp)
    · rw [hnl] at h
      dsimp only at h
      rcases hstop : findSub fenceChars ((l.drop (start + 3)).drop (nlPos + 1)) with _ | stop
      · rw [hstop] at h; exact absurd h (by simp)
      · rw [hstop] at h
        simp only [Option.some.injEq] at h
        subst h
        apply findSub_eq_none_of_not_occurs
        exact no_occurrence_in_first_match_prefix (by decide) hstop

/-! ### Lemmas on the provider routing loop -/

theorem call_provider_log (r : ProviderRouter) (req : LlmTranslateRequest)
    (ov : Option String) (p : Provider) :
    (call_provider r p req ov).2 = (p, resolvedModel r ov p) := by
  cases p <;> rfl

theorem mem_candidate_chain_model {r : ProviderRouter}
    {sel : ProviderSelection} {c : ProviderDescriptor} (ov : Option String)
    (hc : c ∈ candidate_chain r sel) :
    resolvedModel r ov c.provider = ov.getD c.model := by
  cases sel with
  | Ollama =>
    simp only [candidate_chain, List.mem_singleton] at hc
    subst hc; rfl
  | OpenAiCompatible =>
    simp only [candidate_chain, List.mem_singleton] at hc
    subst hc; rfl
  | Auto =>
    by_cases hr : r.ollamaReachable
    · simp only [candidate_chain, hr, if_true, List.mem_cons,
        List.mem_singleton, List.not_mem_nil, or_false] at hc
      rcases hc with hc | hc <;> (subst hc; rfl)
    · simp only [candidate_chain, hr, if_false, Bool.false_eq_true,
        List.mem_singleton] at hc
      subst hc; rfl

theorem translateGo_all_fail (r : ProviderRouter) (req : LlmTranslateRequest)
    (ov : Option String) :
    ∀ chain attempts,
      (∀ c ∈ chain, ∃ e, callResult r req ov c = .error e) →
      translateGo r req ov chain attempts =
        (.error (attempts ++ chain.map fun c =>
            ⟨c.provider, "translate", callErrText r req ov c⟩),
          chain.map fun c => (call_provider r c.provider req ov).2) := by
  intro chain
  induction chain with
  | nil => intro attempts _; simp [translateGo]
  | cons c rest ih =>
    intro attempts hfail
    obtain ⟨e, he⟩ := hfail c (List.mem_cons_self c rest)
    rcases hcp : call_provider r c.provider req ov with ⟨res, call⟩
    have hres : res = .error e := by
      rw [callResult, hcp] at he; exact he
    subst hres
    rw [translateGo, hcp]
    dsimp only
    have hrec := ih (attempts ++ [⟨c.provider, "translate", e⟩])
      (fun c' hc' => hfail c' (List.mem_cons_of_mem c hc'))
    rw [hrec]
    have herr : callErrText r req ov c = e := by
      rw [callErrText, callResult, hcp]
    simp [herr, hcp, List.append_assoc]

theorem translateGo_first_success (r : ProviderRouter)
    (req : LlmTranslateRequest) (ov : Option String) :
    ∀ chain attempts i ci resp,
      chain[i]? = some ci →
      (∀ j c', j < i → chain[j]? = some c' →
        ∃ e, callResult r req ov c' = .error e) →
      callResult r req ov ci = .ok resp →
      translateGo r req ov chain attempts =
        (.ok resp, (chain.take (i + 1)).map fun c =>
          (call_provider r c.provider req ov).2) := by
  intro chain
  induction chain with
  | nil => intro attempts i ci resp hget; simp at hget
  | cons c rest ih =>
    intro attempts i ci resp hget hfail hok
    match i with
    | 0 =>
      simp only [List.getElem?_cons_zero, Option.some.injEq] at hget
      subst hget
      rcases hcp : call_provider r c.provider req ov with ⟨res, call⟩
      have hres : res = .ok resp := by
        rw [callResult, hcp] at hok; exact hok
      subst hres
      rw [translateGo, hcp]
      simp [hcp]
    | i' + 1 =>
      obtain ⟨e, he⟩ := hfail 0 c (by omega) (by simp)
      rcases hcp : call_provider r c.provider req ov with ⟨res, call⟩
      have hres : res = .error e := by
        rw [callResult, hcp] at he; exact he
      subst hres
      rw [translateGo, hcp]
      dsimp only
      have hrec := ih (attempts ++ [⟨c.provider, "translate", e⟩]) i' ci resp
        (by simpa using hget)
        (fun j c' hj hg => hfail (j + 1) c' (by omega) (by simpa using hg))
        hok
      rw [hrec]
      simp [hcp]

/-! ## Claim theorems -/

/-- C1: compiling a request whose resolved kind is JavaScript with
`force_llm = false` returns the source text unchanged with provider and
model `none` and `cache_hit = false`, performing no cache reads, no cache
writes and no translator call. -/
theorem compile_passthrough_for_unforced_javascript
    (translator : TranslationService) (cache : CompileCache)
    (req : CompileRequest) (hkind : resolved_kind req = SourceKind.JavaScript)
    (hforce : req.force_llm = false) :
    compile translator cache req =
      (.ok ⟨req.source_text, ⟨none, none, PROMPT_VERSION, false⟩⟩,
        ⟨[], [], 0⟩) := by
  unfold compile
  rw [hkind, hforce]
  simp

/-- Witness for C1: a concrete unforced `.js` request passes through even
when every collaborator would fail. -/
theorem compile_passthrough_for_unforced_javascript_witness :
    resolved_kind ⟨"1+1", "sample.js", some .JavaScript, none, false, .Auto,
        none, false⟩ = SourceKind.JavaScript ∧
    compile ⟨fun _ => [], fun _ _ _ => .error "llm unavailable"⟩
        ⟨fun _ => none, fun _ _ => .error "unwritable"⟩
        ⟨"1+1", "sample.js", some .JavaScript, none, false, .Auto, none, false⟩ =
      (.ok ⟨"1+1", ⟨none, none, PROMPT_VERSION, false⟩⟩, ⟨[], [], 0⟩) :=
  ⟨by decide,
    compile_passthrough_for_unforced_javascript _ _ _ (by decide) rfl⟩

/-- C4: `candidate_chain` yields the single configured descriptor for an
explicit selection; under `Auto` it yields `[local, cloud]` when the local
(Ollama) probe succeeds and `[cloud]` alone when it fails. -/
theorem candidate_chain_cases (r : ProviderRouter) :
    candidate_chain r .Ollama = [⟨.Ollama, r.ollama_model⟩] ∧
    candidate_chain r .OpenAiCompatible = [⟨.OpenAiCompatible, r.openai_model⟩] ∧
    (r.ollamaReachable = true →
      candidate_chain r .Auto =
        [⟨.Ollama, r.ollama_model⟩, ⟨.OpenAiCompatible, r.openai_model⟩]) ∧
    (r.ollamaReachable = false →
      candidate_chain r .Auto = [⟨.OpenAiCompatible, r.openai_model⟩]) := by
  refine ⟨rfl, rfl, fun h => ?_, fun h => ?_⟩ <;> simp [candidate_chain, h]

/-- Witness for C4: a concrete router with an unreachable local provider
has the one-element cloud chain. -/
theorem candidate_chain_cases_witness :
    (ProviderRouter.ollamaReachable
        ⟨fun _ _ => .error "x", fun _ _ => .error "x", false, "lm", "cm"⟩ = false) ∧
    candidate_chain
        ⟨fun _ _ => .error "x", fun _ _ => .error "x", false, "lm", "cm"⟩ .Auto =
      [⟨.OpenAiCompatible, "cm"⟩] :=
  ⟨rfl, (candidate_chain_cases _).2.2.2 rfl⟩

/-- Supporting facts for the cache-key claim: `cache_key` is a function of
the five inputs (identical tuples give identical keys), and for a fixed
source text, source id and kind hint the SHA-256 input message computed
for provider Ollama differs from the one computed for provider
OpenAiCompatible whatever the two models are. Key-level inequality for
all models would additionally require collision-freedom of SHA-256 on
this message family, which is neither provable nor refutable here, so
these two facts do not settle the claim as stated. -/
theorem cache_key_deterministic_and_provider_separated :
    (∀ s₁ s₂ i₁ i₂ k₁ k₂ (p₁ p₂ : Provider) m₁ m₂,
      s₁ = s₂ → i₁ = i₂ → k₁ = k₂ → p₁ = p₂ → m₁ = m₂ →
        cache_key s₁ i₁ k₁ p₁ m₁ = cache_key s₂ i₂ k₂ p₂ m₂) ∧
    (∀ s i k m₁ m₂,
      cacheKeyInput s i k .Ollama m₁ ≠ cacheKeyInput s i k .OpenAiCompatible m₂) := by
  constructor
  · intro s₁ s₂ i₁ i₂ k₁ k₂ p₁ p₂ m₁ m₂ hs hi hk hp hm
    rw [hs, hi, hk, hp, hm]
  · intro s i k m₁ m₂ h
    have hd := congrArg String.data h
    simp only [cacheKeyInput, format_provider, String.data_append,
      List.append_assoc, List.append_cancel_left_eq] at hd
    simp only [show ("ollama" : String).data = ['o','l','l','a','m','a'] from rfl,
      show ("openai-compatible" : String).data =
        ['o','p','e','n','a','i','-','c','o','m','p','a','t','i','b','l','e'] from rfl,
      List.cons_append, List.cons.injEq] at hd
    exact absurd hd.2.1 (by decide)

/-- C3: `translate` walks the candidate chain in order, calling each tried
candidate's client exactly once with the override model when present (else
the candidate's default model); it returns the first success immediately
— having called exactly the candidates up to and including the succeeding
one — and when every candidate fails it returns one routing error whose
attempts list holds one `(provider, "translate", error)` entry per
candidate in chain order. -/
theorem translate_routing_spec (r : ProviderRouter)
    (selection : ProviderSelection) (req : LlmTranslateRequest)
    (ov : Option String) :
    (∀ c ∈ candidate_chain r selection,
      (call_provider r c.provider req ov).2 = (c.provider, ov.getD c.model)) ∧
    (∀ i ci resp, (candidate_chain r selection)[i]? = some ci →
      (∀ j c', j < i → (candidate_chain r selection)[j]? = some c' →
        ∃ e, callResult r req ov c' = .error e) →
      callResult r req ov ci = .ok resp →
      translate r selection req ov =
        (.ok resp, ((candidate_chain r selection).take (i + 1)).map fun c =>
          (c.provider, ov.getD c.model))) ∧
    ((∀ c ∈ candidate_chain r selection,
        ∃ e, callResult r req ov c = .error e) →
      translate r selection req ov =
        (.error ((candidate_chain r selection).map fun c =>
            ⟨c.provider, "translate", callErrText r req ov c⟩),
          (candidate_chain r selection).map fun c =>
            (c.provider, ov.getD c.model))) := by
  have hlog : ∀ c ∈ candidate_chain r selection,
      (call_provider r c.provider req ov).2 = (c.provider, ov.getD c.model) := by
    intro c hc
    rw [call_provider_log, mem_candidate_chain_model ov hc]
  refine ⟨hlog, ?_, ?_⟩
  · intro i ci resp hget hfail hok
    rw [translate,
      translateGo_first_success r req ov (candidate_chain r selection) [] i ci resp
        hget hfail hok]
    refine congrArg _ (List.map_congr_left fun c hc => ?_)
    exact hlog c (List.mem_of_mem_take hc)
  · intro hfail
    rw [translate,
      translateGo_all_fail r req ov (candidate_chain r selection) [] hfail]
    rw [List.nil_append]
    exact congrArg _ (List.map_congr_left hlog)

/-- Witness for C3: with Auto selection, a reachable but failing local
client and a succeeding cloud client, `translate` falls back and logs one
call to each candidate in order. -/
theorem translate_routing_spec_witness :
    callResult ⟨fun _ _ => .error "boom", fun _ _ => .ok "2+2", true, "lm", "cm"⟩
        ⟨"write 1", "sample.pseudo", some "pseudo"⟩ none
        ⟨.OpenAiCompatible, "cm"⟩ =
      .ok ⟨"2+2", .OpenAiCompatible, "cm"⟩ ∧
    translate ⟨fun _ _ => .error "boom", fun _ _ => .ok "2+2", true, "lm", "cm"⟩
        .Auto ⟨"write 1", "sample.pseudo", some "pseudo"⟩ none =
      (.ok ⟨"2+2", .OpenAiCompatible, "cm"⟩,
        [(.Ollama, "lm"), (.OpenAiCompatible, "cm")]) :=
  ⟨rfl,
    (translate_routing_spec _ .Auto _ none).2.1 1 ⟨.OpenAiCompatible, "cm"⟩
      ⟨"2+2", .OpenAiCompatible, "cm"⟩ (by decide)
      (fun j c' hj hg => by
        have hj0 : j = 0 := by omega
        subst hj0
        simp only [candidate_chain, if_true, List.getElem?_cons_zero,
          Option.some.injEq] at hg
        subst hg
        exact ⟨"boom", rfl⟩)
      rfl⟩

/-- C5: output normalization trims surrounding whitespace and fails on
whitespace-only input; when the trimmed text contains a fenced code block
it returns the first fenced interior trimmed, failing if that interior is
empty; otherwise it returns the trimmed text itself; and it is idempotent:
renormalizing any successful output returns it unchanged. -/
theorem normalize_js_output_spec :
    (∀ raw, trimChars raw = [] →
      normalize_js_output raw = .error "LLM returned empty output") ∧
    (∀ raw b, extract_fenced_code (trimChars raw) = some b →
      trimChars raw ≠ [] →
      normalize_js_output raw =
        (if (trimChars b).isEmpty then .error "LLM returned empty fenced output"
         else .ok (trimChars b))) ∧
    (∀ raw, extract_fenced_code (trimChars raw) = none → trimChars raw ≠ [] →
      normalize_js_output raw = .ok (trimChars raw)) ∧
    (∀ raw out, normalize_js_output raw = .ok out →
      normalize_js_output out = .ok out) := by
  have hbranch : ∀ raw b, extract_fenced_code (trimChars raw) = some b →
      trimChars raw ≠ [] →
      normalize_js_output raw =
        (if (trimChars b).isEmpty then .error "LLM returned empty fenced output"
         else .ok (trimChars b)) := by
    intro raw b hb hne
    simp only [normalize_js_output, hb, List.isEmpty_iff, hne, if_false]
  have hplain : ∀ raw, extract_fenced_code (trimChars raw) = none →
      trimChars raw ≠ [] → normalize_js_output raw = .ok (trimChars raw) := by
    intro raw hnone hne
    simp only [normalize_js_output, hnone, List.isEmpty_iff, hne, if_false]
  refine ⟨?_, hbranch, hplain, ?_⟩
  · intro raw h
    simp only [normalize_js_output, h, List.isEmpty_nil, if_true]
  · intro raw out h
    simp only [normalize_js_output, List.isEmpty_iff] at h
    by_cases hemp : trimChars raw = []
    · rw [if_pos hemp] at h
      exact absurd h (by simp)
    · rw [if_neg hemp] at h
      rcases hext : extract_fenced_code (trimChars raw) with _ | b
      · rw [hext] at h
        simp only [Except.ok.injEq] at h
        subst h
        have htrim : trimChars (trimChars raw) = trimChars raw := trimChars_idem raw
        rw [hplain (trimChars raw) (by rw [htrim]; exact hext) (by rw [htrim]; exact hemp),
          htrim]
      · rw [hext] at h
        dsimp only at h
        by_cases hbe : trimChars b = []
        · rw [if_pos hbe] at h
          exact absurd h (by simp)
        · rw [if_neg hbe] at h
          simp only [Except.ok.injEq] at h
          subst h
          have htrim : trimChars (trimChars b) = trimChars b := trimChars_idem b
          have hfence_b : findSub fenceChars b = none := fence_not_in_extracted hext
          have hfence_out : findSub fenceChars (trimChars b) = none :=
            findSub_none_of_infix (by decide) ( trimChars_infix b)
              (not_occurs_of_findSub_none hfence_b)
          have hextout : extract_fenced_code (trimChars b) = none := by
            unfold extract_fenced_code
            rw [hfence_out]
          rw [hplain (trimChars b) (by rw [htrim]; exact hextout)
              (by rw [htrim]; exact hbe), htrim]

/-- Witness for C5: a fenced response yields exactly its trimmed interior. -/
theorem normalize_js_output_spec_witness :
    extract_fenced_code (trimChars (" ```js\n1+1\n``` ".data)) =
      some ("1+1\n".data) ∧
    normalize_js_output (" ```js\n1+1\n``` ".data) =
      (if (trimChars ("1+1\n".data)).isEmpty
       then .error "LLM returned empty fenced output"
       else .ok (trimChars ("1+1\n".data))) :=
  ⟨by decide,
    normalize_js_output_spec.2.1 _ _ (by decide) (by decide)⟩


/-- C9: the file cache's `get` answers a miss — never an error — whenever
the read or the parse fails, and performs exactly one read (creating no
directory and writing nothing); `put` propagates directory-creation and
write failures as errors and always creates the cache root directory
before the write. -/
theorem file_cache_get_put_spec :
    (∀ (fs : FsOracle) parseJson root key,
      fs.readToString (cacheFilePath root key) = none →
      fileCacheGet fs parseJson root key =
        (none, [.readToString (cacheFilePath root key)])) ∧
    (∀ (fs : FsOracle) parseJson root key raw,
      fs.readToString (cacheFilePath root key) = some raw →
      parseJson raw = none →
      fileCacheGet fs parseJson root key =
        (none, [.readToString (cacheFilePath root key)])) ∧
    (∀ (fs : FsOracle) parseJson root key,
      (fileCacheGet fs parseJson root key).2 =
        [.readToString (cacheFilePath root key)]) ∧
    (∀ (fs : FsOracle) serializeJson root key result e,
      fs.createDirAll root = .error e →
      fileCachePut fs serializeJson root key result =
        (.error ("failed creating cache dir " ++ root ++ ": " ++ e),
          [.createDirAll root])) ∧
    (∀ (fs : FsOracle) serializeJson root key result raw e,
      fs.createDirAll root = .ok () →
      serializeJson (cachePayload result) = .ok raw →
      fs.write (cacheFilePath root key) raw = .error e →
      fileCachePut fs serializeJson root key result =
        (.error ("failed writing cache file: " ++ e),
          [.createDirAll root, .write (cacheFilePath root key) raw])) ∧
    (∀ (fs : FsOracle) serializeJson root key result raw,
      fs.createDirAll root = .ok () →
      serializeJson (cachePayload result) = .ok raw →
      fs.write (cacheFilePath root key) raw = .ok () →
      fileCachePut fs serializeJson root key result =
        (.ok (), [.createDirAll root, .write (cacheFilePath root key) raw])) := by
  refine ⟨?_, ?_, ?_, ?_, ?_, ?_⟩
  · intro fs parseJson root key hread
    simp only [fileCacheGet, hread]
  · intro fs parseJson root key raw hread hparse
    simp only [fileCacheGet, hread, hparse]
  · intro fs parseJson root key
    rfl
  · intro fs serializeJson root key result e hdir
    simp only [fileCachePut, hdir]
  · intro fs serializeJson root key result raw e hdir hser hw
    simp only [fileCachePut, hdir, hser, hw]
  · intro fs serializeJson root key result raw hdir hser hw
    simp only [fileCachePut, hdir, hser, hw]

/-- Witness for C9: a concrete unwritable filesystem makes `put` fail with
the write error while `get` on a missing file is a plain miss. -/
theorem file_cache_get_put_spec_witness :
    (FsOracle.readToString
        ⟨fun _ => none, fun _ => .ok (), fun _ _ => .error "disk full"⟩
        (cacheFilePath "/root-cache" "k") = none) ∧
    fileCacheGet ⟨fun _ => none, fun _ => .ok (), fun _ _ => .error "disk full"⟩
        (fun _ => none) "/root-cache" "k" =
      (none, [.readToString (cacheFilePath "/root-cache" "k")]) ∧
    fileCachePut ⟨fun _ => none, fun _ => .ok (), fun _ _ => .error "disk full"⟩
        (fun _ => .ok "{}") "/root-cache" "k"
        ⟨"1+1", ⟨some .Ollama, some "qwen", PROMPT_VERSION, false⟩⟩ =
      (.error ("failed writing cache file: " ++ "disk full"),
        [.createDirAll "/root-cache",
          .write (cacheFilePath "/root-cache" "k") "{}"]) :=
  ⟨rfl,
    file_cache_get_put_spec.1 _ (fun _ => none) "/root-cache" "k" rfl,
    file_cache_get_put_spec.2.2.2.2.1 _ (fun _ => .ok "{}") "/root-cache" "k"
      ⟨"1+1", ⟨some .Ollama, some "qwen", PROMPT_VERSION, false⟩⟩ "{}"
      "disk full" rfl rfl rfl⟩

/-! ### Lemmas on the `run_command` retry loop -/

theorem runCommandLoop_all_fail_aux (file : String) (k : Nat)
    (runErr : Nat → String) (hsup : is_self_heal_supported_source file = true) :
    ∀ fuel attempt, attempt ≤ k → attempt + fuel = k + 1 →
      runCommandLoop (fun i => .error (runErr i)) (fun _ => .ok ()) true file k
          fuel attempt attempt =
        some (.exhausted file k (runErr k), k) := by
  intro fuel
  induction fuel with
  | zero => intro attempt h1 h2; omega
  | succ fuel ih =>
    intro attempt h1 h2
    rw [runCommandLoop, hsup]
    simp only [Bool.not_true, Bool.false_eq_true, if_false]
    by_cases hend : k ≤ attempt
    · have hak : attempt = k := by omega
      subst hak
      simp [hend]
    · simp only [hend, if_false]
      exact ih (attempt + 1) (by omega) (by omega)

theorem runCommandLoop_heal_le_aux (runFile : Nat → Except String String)
    (tryHeal : Nat → Except String Unit) (selfHeal : Bool) (file : String)
    (k : Nat) :
    ∀ fuel attempt healCalls r n, healCalls ≤ attempt → attempt ≤ k →
      runCommandLoop runFile tryHeal selfHeal file k fuel attempt healCalls =
        some (r, n) →
      n ≤ k := by
  intro fuel
  induction fuel with
  | zero => intro attempt healCalls r n _ _ h; simp [runCommandLoop] at h
  | succ fuel ih =>
    intro attempt healCalls r n h1 h2 h
    rw [runCommandLoop] at h
    rcases hrf : runFile attempt with err | value
    · rw [hrf] at h
      dsimp only at h
      by_cases hsh : selfHeal = true
      · subst hsh
        by_cases hsup2 : is_self_heal_supported_source file = true
        · by_cases hend : k ≤ attempt
          · simp only [hsup2, Bool.not_true, Bool.false_eq_true,
              if_false, hend, if_true, Option.some.injEq, Prod.mk.injEq] at h
            omega
          · simp only [hsup2, Bool.not_true, Bool.false_eq_true,
              if_false, hend] at h
            rcases hth : tryHeal attempt with healErr | u
            · rw [hth] at h
              simp only [Option.some.injEq, Prod.mk.injEq] at h
              omega
            · rw [hth] at h
              dsimp only at h
              exact ih (attempt + 1) (healCalls + 1) r n (by omega) (by omega) h
        · simp only [Bool.not_eq_true] at hsup2
          simp only [hsup2, Bool.not_true, Bool.not_false,
            Bool.false_eq_true, if_false, if_true, Option.some.injEq,
            Prod.mk.injEq] at h
          omega
      · simp only [Bool.not_eq_true] at hsh
        simp only [hsh, Bool.not_false, if_true, Option.some.injEq,
          Prod.mk.injEq] at h
        omega
    · rw [hrf] at h
      dsimp only at h
      simp only [Option.some.injEq, Prod.mk.injEq] at h
      omega

theorem runCommandLoop_terminates_aux (runFile : Nat → Except String String)
    (tryHeal : Nat → Except String Unit) (selfHeal : Bool) (file : String)
    (k : Nat) :
    ∀ fuel attempt healCalls, attempt ≤ k → k + 1 ≤ fuel + attempt →
      (runCommandLoop runFile tryHeal selfHeal file k fuel attempt
        healCalls).isSome = true := by
  intro fuel
  induction fuel with
  | zero => intro attempt healCalls h1 h2; omega
  | succ fuel ih =>
    intro attempt healCalls h1 h2
    rw [runCommandLoop]
    rcases hrf : runFile attempt with err | value
    · dsimp only
      by_cases hsh : selfHeal = true
      · subst hsh
        by_cases hsup2 : is_self_heal_supported_source file = true
        · by_cases hend : k ≤ attempt
          · simp [hsup2, hend]
          · simp only [hsup2, Bool.not_true, Bool.false_eq_true,
              if_false, hend]
            rcases hth : tryHeal attempt with healErr | u
            · rfl
            · dsimp only
              exact ih (attempt + 1) (healCalls + 1) (by omega) (by omega)
        · simp only [Bool.not_eq_true] at hsup2
          simp [hsup2]
      · simp only [Bool.not_eq_true] at hsh
        simp [hsh]
    · rfl

/-- C6: for a whole-file run with self-heal enabled on a supported file and
a bound of `k`, when every execution attempt fails (the repairs themselves
compiling fine), the loop performs exactly `k` repair attempts and then
stops with the final error naming the file and the attempt count `k`;
moreover — for arbitrary execution and repair behavior — it never performs
more than `k` repairs and always terminates within `k + 1` iterations. -/
theorem run_command_self_heal_bound (k : Nat) (file : String)
    (runErr : Nat → String)
    (hsup : is_self_heal_supported_source file = true) :
    runCommandLoop (fun i => .error (runErr i)) (fun _ => .ok ()) true file k
        (k + 1) 0 0 =
      some (.exhausted file k (runErr k), k) ∧
    runErrorMessage (.exhausted file k (runErr k)) =
      some ("failed running " ++ file ++ " after " ++ toString k ++
        " self-heal attempts: " ++ runErr k) ∧
    (∀ runFile tryHeal selfHeal r n,
      runCommandLoop runFile tryHeal selfHeal file k (k + 1) 0 0 =
        some (r, n) → n ≤ k) ∧
    (∀ runFile tryHeal selfHeal,
      (runCommandLoop runFile tryHeal selfHeal file k (k + 1) 0 0).isSome =
        true) :=
  ⟨runCommandLoop_all_fail_aux file k runErr hsup (k + 1) 0 (by omega)
      (by omega),
    rfl,
    fun runFile tryHeal selfHeal r n h =>
      runCommandLoop_heal_le_aux runFile tryHeal selfHeal file k (k + 1) 0 0
        r n (by omega) (by omega) h,
    fun runFile tryHeal selfHeal =>
      runCommandLoop_terminates_aux runFile tryHeal selfHeal file k (k + 1)
        0 0 (by omega) (by omega)⟩

/-- Witness for C6: with bound 2 on a `.js` file and every run failing,
exactly 2 repairs happen and the final error carries the count. -/
theorem run_command_self_heal_bound_witness :
    is_self_heal_supported_source "app.js" = true ∧
    runCommandLoop (fun _ => .error "ReferenceError: x is not defined")
        (fun _ => .ok ()) true "app.js" 2 3 0 0 =
      some (.exhausted "app.js" 2 "ReferenceError: x is not defined", 2) :=
  ⟨by decide,
    (run_command_self_heal_bound 2 "app.js"
      (fun _ => "ReferenceError: x is not defined") (by decide)).1⟩

/-- C10: when a whole-file run fails with self-heal enabled, a repair is
attempted only for files whose extension lower-cases to `js`, `mjs`, `cjs`
or `jsx`; any other file (including extension-less ones) gets the
unsupported-file error back immediately with zero repair attempts,
whatever the attempt budget; and the supported-source predicate is exactly
that extension test. -/
theorem self_heal_supported_gating (file : String) (maxHealAttempts : Nat)
    (runFile : Nat → Except String String) (tryHeal : Nat → Except String Unit)
    (err : String) (fuel : Nat)
    (hunsup : is_self_heal_supported_source file = false)
    (hrun : runFile 0 = .error err) :
    runCommandLoop runFile tryHeal true file maxHealAttempts (fuel + 1) 0 0 =
      some (.failUnsupported file err, 0) ∧
    (∀ p, is_self_heal_supported_source p = true ↔
      ∃ ext, pathExtension p = some ext ∧
        strAsciiLower ext ∈ (["js", "mjs", "cjs", "jsx"] : List String)) := by
  constructor
  · rw [runCommandLoop, hrun]
    dsimp only
    rw [hunsup]
    rfl
  · intro p
    unfold is_self_heal_supported_source
    rcases hext : pathExtension p with _ | ext
    · simp
    · simp [List.contains, List.elem_iff]

/-- Witness for C10: a `.pseudo` source is rejected without any repair,
and `.js` files are in the supported set. -/
theorem self_heal_supported_gating_witness :
    is_self_heal_supported_source "demo.pseudo" = false ∧
    (fun (_ : Nat) => (.error "TypeError: boom" : Except String String)) 0 =
      .error "TypeError: boom" ∧
    runCommandLoop (fun _ => .error "TypeError: boom") (fun _ => .ok ()) true
        "demo.pseudo" 5 6 0 0 =
      some (.failUnsupported "demo.pseudo" "TypeError: boom", 0) ∧
    is_self_heal_supported_source "lib.cJS" = true ∧
    is_self_heal_supported_source "noextension" = false ∧
    is_self_heal_supported_source "archive.ts" = false :=
  ⟨by decide, rfl,
    (self_heal_supported_gating "demo.pseudo" 5 (fun _ => .error "TypeError: boom")
      (fun _ => .ok ()) "TypeError: boom" 5 (by decide) rfl).1,
    by decide, by decide, by decide⟩

/-- Generalized form of the non-recoverable short-circuit: if the loop
reaches attempt `j` (budget available and evals failing up to `j`, repair
errors before `j` recoverable) and attempt `j`'s repair fails with a
non-recoverable error, the loop stops right there, keeping attempt `j`'s
runtime error and having made exactly `j + 1` repair compiles. -/
theorem replRuntimeLoop_nonrecoverable_aux
    (evalR healR : Nat → Except String String) (limit : Option Nat)
    (j : Nat) (e he : String)
    (hbudget : ∀ i, i ≤ j → can_continue_self_heal i limit = true)
    (heval : ∀ i, i < j → ∃ er, evalR i = .error er)
    (hrec : ∀ i, i < j → ∀ er, healR i = .error er →
      is_non_recoverable_self_heal_error er = false)
    (hevalj : evalR j = .error e) (hhealj : healR j = .error he)
    (hnonrec : is_non_recoverable_self_heal_error he = true) :
    ∀ fuel attempt, attempt ≤ j → j - attempt < fuel →
      replRuntimeLoop evalR healR limit fuel attempt attempt =
        some ⟨none, some e, j + 1⟩ := by
  intro fuel
  induction fuel with
  | zero => intro attempt h1 h2; omega
  | succ fuel ih =>
    intro attempt h1 h2
    rw [replRuntimeLoop]
    simp only [hbudget attempt h1, if_true]
    by_cases haj : attempt = j
    · subst haj
      rw [hevalj]
      dsimp only
      rw [hhealj]
      dsimp only
      rw [hnonrec]
      rfl
    · have hlt : attempt < j := by omega
      obtain ⟨er, her⟩ := heval attempt hlt
      rw [her]
      dsimp only
      rcases hh : healR attempt with er2 | s
      · dsimp only
        rw [hrec attempt hlt er2 hh]
        simp only [Bool.false_eq_true, if_false]
        exact ih (attempt + 1) (by omega) (by omega)
      · dsimp only
        exact ih (attempt + 1) (by omega) (by omega)

/-- C8: in the interactive runtime self-heal loop, a repair attempt that
fails with a provider/credential error — detected by the substring match of
`is_non_recoverable_self_heal_error` — terminates the loop immediately
after that attempt, with the pending runtime error as the final error,
regardless of how much attempt budget remains (the hypotheses only require
budget through attempt `j`; `limit` may in particular be `none`, the
unlimited case). -/
theorem repl_nonrecoverable_short_circuit
    (evalR healR : Nat → Except String String) (limit : Option Nat)
    (j fuel : Nat) (e he : String)
    (hbudget : ∀ i, i ≤ j → can_continue_self_heal i limit = true)
    (heval : ∀ i, i < j → ∃ er, evalR i = .error er)
    (hrec : ∀ i, i < j → ∀ er, healR i = .error er →
      is_non_recoverable_self_heal_error er = false)
    (hevalj : evalR j = .error e) (hhealj : healR j = .error he)
    (hnonrec : is_non_recoverable_self_heal_error he = true)
    (hfuel : j < fuel) :
    replRuntimeLoop evalR healR limit fuel 0 0 = some ⟨none, some e, j + 1⟩ :=
  replRuntimeLoop_nonrecoverable_aux evalR healR limit j e he hbudget heval
    hrec hevalj hhealj hnonrec fuel 0 (by omega) (by omega)

/-- Witness for C8: with the unlimited budget, a recoverable repair failure
on attempt 0 and a missing-API-key failure on attempt 1, the loop stops
after attempt 1 with plenty of fuel left. -/
theorem repl_nonrecoverable_short_circuit_witness :
    can_continue_self_heal 2 none = true ∧
    is_non_recoverable_self_heal_error
      "OPENAI_API_KEY is required for OpenAI-compatible translation" = true ∧
    replRuntimeLoop (fun _ => .error "TypeError: x is undefined")
        (fun i => if i = 0 then .error "transient glitch"
          else .error "OPENAI_API_KEY is required for OpenAI-compatible translation")
        none 5 0 0 =
      some ⟨none, some "TypeError: x is undefined", 2⟩ :=
  ⟨rfl, by decide,
    repl_nonrecoverable_short_circuit
      (fun _ => .error "TypeError: x is undefined")
      (fun i => if i = 0 then .error "transient glitch"
        else .error "OPENAI_API_KEY is required for OpenAI-compatible translation")
      none 1 5 "TypeError: x is undefined"
      "OPENAI_API_KEY is required for OpenAI-compatible translation"
      (fun _ _ => rfl)
      (fun i _ => ⟨"TypeError: x is undefined", rfl⟩)
      (fun i hi er her => by
        have hi0 : i = 0 := by omega
        subst hi0
        simp only [if_true] at her
        injection her with her'
        subst her'
        decide)
      rfl rfl (by decide) (by omega)⟩

/-- C7 counterexample: in the interactive flavor, `repl_command` passes
the session's `resolved.no_cache` flag into `compile_repl_heal_candidate`
(crates/klumo-cli/src/main.rs), and with no CLI flag, no environment
variable and no config entry, `resolve_run_defaults` resolves that flag to
`false` — so the submitted interactive repair request has
`no_cache = false`, refuting the claim that every repair request is
submitted with caching disabled. -/
theorem repl_heal_request_cache_counterexample :
    resolveNoCache none none none = false ∧
    (replHealRequest "pseudo" .Auto none (resolveNoCache none none none)
        none "repair prompt" 0).no_cache = false ∧
    ¬ ((replHealRequest "pseudo" .Auto none (resolveNoCache none none none)
        none "repair prompt" 0).no_cache = true) :=
  ⟨rfl, rfl, by decide⟩

/-- C7 (amended): every repair compile request in both flavors is
submitted with `force_llm = true` and an attempt-distinct source
identifier; the whole-file flavor is additionally submitted with
`no_cache = true`, while the interactive flavor carries the session's
resolved `no_cache` flag unchanged. -/
theorem heal_request_flags (file src errText repl_lang heal_prompt : String)
    (options : RunOptions) (sel : ProviderSelection) (mo : Option String)
    (noCache : Bool) (scope : Option String) :
    (∀ attempt,
      (fileHealRequest file src errText options attempt).force_llm = true ∧
      (fileHealRequest file src errText options attempt).no_cache = true) ∧
    (∀ a b, (fileHealRequest file src errText options a).source_id =
      (fileHealRequest file src errText options b).source_id → a = b) ∧
    (∀ attempt,
      (replHealRequest repl_lang sel mo noCache scope heal_prompt
        attempt).force_llm = true ∧
      (replHealRequest repl_lang sel mo noCache scope heal_prompt
        attempt).no_cache = noCache) ∧
    (∀ a b, (replHealRequest repl_lang sel mo noCache scope heal_prompt
        a).source_id =
      (replHealRequest repl_lang sel mo noCache scope heal_prompt
        b).source_id → a = b) := by
  refine ⟨fun attempt => ⟨rfl, rfl⟩, ?_, fun attempt => ⟨rfl, rfl⟩, ?_⟩
  · intro a b h
    have hd := congrArg String.data h
    simp only [fileHealRequest, String.data_append] at hd
    have h2 := List.append_cancel_left hd
    have h3 : toString (a + 1) = toString (b + 1) := String.ext h2
    have h4 := natToString_inj h3
    omega
  · intro a b h
    have hd := congrArg String.data h
    simp only [replHealRequest, String.data_append] at hd
    have h2 := List.append_cancel_right hd
    have h3 := List.append_cancel_left h2
    exact natToString_inj (String.ext h3)

/-- Witness for C7 (amended): concrete whole-file and interactive repair
requests for attempts 0 and 1 have distinct source ids and the stated
flags. -/
theorem heal_request_flags_witness :
    (fileHealRequest "app.js" "1+1" "boom" ⟨.Auto, none⟩ 0).no_cache = true ∧
    (fileHealRequest "app.js" "1+1" "boom" ⟨.Auto, none⟩ 0).source_id =
      (fileHealRequest "app.js" "1+1" "boom" ⟨.Auto, none⟩ 0).source_id ∧
    (0 : Nat) = 0 :=
  ⟨rfl, rfl,
    (heal_request_flags "app.js" "1+1" "boom" "pseudo" "prompt" ⟨.Auto, none⟩
      .Auto none false none).2.1 0 0 rfl⟩

end Klumo
